import Mathlib

/-!
# Verification of keras sequence preprocessing and SGD momentum semantics

Shallow embedding of:
* the momentum-SGD update rule (the optimizer implementation file
  `keras/optimizers/optimizer_v2/gradient_descent.py` is not part of the
  excerpt; its dense/sparse update formulas, constructor validation and
  effective learning rate are modelled from the specification, and the
  Nesterov reference formula is taken from the test helper
  `MomentumOptimizerTest._update_nesterov_momentum_numpy` which is in the
  excerpt);
* `keras/preprocessing/sequence.py`: `pad_sequences`, `make_sampling_table`,
  `skipgrams`, `TimeseriesGenerator`.

Machine floats are modelled as exact rationals (`ℚ`) where the claims are
about exact arithmetic, and as reals (`ℝ`) for `make_sampling_table` which
uses `log`/`sqrt`.
-/

namespace KerasSpec

/-! ## Momentum SGD update rule (spec-modelled) -/

/-- Modelled from the spec: `effective_lr(step)`.  The optimizer source
(`optimizer_v2/gradient_descent.py`) is not in the excerpt; per the spec,
if a decay rate `d > 0` was configured, `effective_lr = base_lr / (1 + d*step)`
with `step` starting at 0 for the first update. -/
def effective_lr (base_lr decay : ℚ) (step : ℕ) : ℚ :=
  base_lr / (1 + decay * step)

/-- Modelled from the spec: dense classical (heavy-ball) momentum update,
`new_accumulator = momentum * accumulator - effective_lr(step) * gradient`,
`new_variable = variable + new_accumulator`.  Returns
`(new_variable, new_accumulator)`. -/
def momentum_step (momentum base_lr decay : ℚ) (step : ℕ)
    (var acc grad : ℚ) : ℚ × ℚ :=
  let newAcc := momentum * acc - effective_lr base_lr decay step * grad
  (var + newAcc, newAcc)

/-- Nesterov momentum update, transcribed from the test helper
`MomentumOptimizerTest._update_nesterov_momentum_numpy`
(gradient_descent_test.py lines 294-297):
`accum = accum * momentum - g * lr; var += (accum * momentum - g * lr)`. -/
def nesterov_step (momentum base_lr decay : ℚ) (step : ℕ)
    (var acc grad : ℚ) : ℚ × ℚ :=
  let newAcc := momentum * acc - effective_lr base_lr decay step * grad
  (var + momentum * newAcc - effective_lr base_lr decay step * grad, newAcc)

/-- Two successive dense classical momentum updates with the same gradient,
as in `MomentumOptimizerTest.testBasic` (state is `(variable, accumulator)`). -/
def momentum_two_steps (momentum base_lr : ℚ) (var acc grad : ℚ) :
    ℚ × ℚ :=
  let s1 := momentum_step momentum base_lr 0 0 var acc grad
  momentum_step momentum base_lr 0 1 s1.1 s1.2 grad

/-- Modelled from the spec: SGD constructor validation
(`optimizer_v2/gradient_descent.py` is not in the excerpt).  Construction
fails with a configuration error if momentum is outside `[0,1]` or if
`momentum == 0` while `nesterov = true`; otherwise it succeeds and records
the hyperparameters. -/
def sgd_construct (learning_rate momentum : ℚ) (nesterov : Bool) :
    Option (ℚ × ℚ × Bool) :=
  if momentum < 0 ∨ 1 < momentum ∨ (momentum = 0 ∧ nesterov = true) then none
  else some (learning_rate, momentum, nesterov)

end KerasSpec

namespace KerasSpec

/-! ## C1: classical momentum, exact two-step computation -/

/-- C1: Classical momentum (Nesterov=false): each update satisfies
`new_accumulator = momentum * accumulator - effective_lr(step) * gradient` and
`new_variable = variable + new_accumulator`; and for two successive updates
with `lr = 2.0`, `momentum = 0.9`, constant gradient `0.1`, initial variable
`1.0` and accumulator `0`, the accumulator is exactly `-0.2` after step 1,
`-0.38` after step 2, and the variable is exactly `0.42` after step 2
(exact rational arithmetic). -/
theorem momentum_step_formula_and_testBasic :
    (∀ m lr d : ℚ, ∀ st : ℕ, ∀ v a g : ℚ,
      (momentum_step m lr d st v a g).2 = m * a - effective_lr lr d st * g ∧
      (momentum_step m lr d st v a g).1 = v + (momentum_step m lr d st v a g).2) ∧
    (momentum_step (9/10) 2 0 0 1 0 (1/10)).2 = -(2/10) ∧
    (momentum_two_steps (9/10) 2 1 0 (1/10)).2 = (9/10) * (-(2/10)) - 2 * (1/10) ∧
    (momentum_two_steps (9/10) 2 1 0 (1/10)).2 = -(38/100) ∧
    (momentum_two_steps (9/10) 2 1 0 (1/10)).1 = 1 - 2/10 - 38/100 ∧
    (momentum_two_steps (9/10) 2 1 0 (1/10)).1 = 42/100 := by
  refine ⟨fun m lr d st v a g => ⟨rfl, rfl⟩, ?_, ?_, ?_, ?_, ?_⟩ <;>
    simp [momentum_two_steps, momentum_step, effective_lr] <;> norm_num

end KerasSpec

namespace KerasSpec

/-! ## C2: Nesterov vs classical variable update -/

/-- C2 counterexample: with `momentum = 1/2 > 0`, `lr = 1 > 0`, gradient
`1 ≠ 0`, and equal starting state `(variable, accumulator) = (0, -2)`, the
Nesterov variable update coincides with the classical one, so the claim's
universally quantified "differs" is false. -/
theorem nesterov_eq_classical_at_special_accumulator :
    (0 : ℚ) < 1/2 ∧ (0 : ℚ) < 1 ∧ (1 : ℚ) ≠ 0 ∧
    (nesterov_step (1/2) 1 0 0 0 (-2) 1).1 = (momentum_step (1/2) 1 0 0 0 (-2) 1).1 := by
  refine ⟨by norm_num, by norm_num, by norm_num, ?_⟩
  simp [nesterov_step, momentum_step, effective_lr]
  norm_num

/-- C2 (amended): for every momentum > 0, learning rate > 0, nonzero
gradient, and any state whose accumulator satisfies
`(momentum - 1) * accumulator ≠ lr * gradient` (in particular the zero
initial accumulator), the Nesterov variable update
`variable + momentum * new_accumulator - lr * gradient` differs from the
classical update `variable + new_accumulator` (same `new_accumulator`). -/
theorem nesterov_ne_classical (m lr g v a : ℚ) (st : ℕ)
    (hm : 0 < m) (_hlr : 0 < lr) (_hg : g ≠ 0)
    (ha : (m - 1) * a ≠ lr * g) :
    (nesterov_step m lr 0 st v a g).1 ≠ (momentum_step m lr 0 st v a g).1 := by
  simp only [nesterov_step, momentum_step, effective_lr]
  intro heq
  apply ha
  have hm0 : m ≠ 0 := ne_of_gt hm
  have h1 : (1 : ℚ) + 0 * (st : ℚ) = 1 := by ring
  rw [h1, div_one] at heq
  have h2 : m * ((m - 1) * a - lr * g) = 0 := by linear_combination heq
  rcases mul_eq_zero.mp h2 with h | h
  · exact absurd h hm0
  · linarith

/-- C2 witness: the amended theorem applied at `momentum = 9/10`, `lr = 2`,
gradient `1/10`, variable `1`, zero accumulator. -/
theorem nesterov_ne_classical_witness :
    (nesterov_step (9/10) 2 0 0 1 0 (1/10)).1 ≠ (momentum_step (9/10) 2 0 0 1 0 (1/10)).1 :=
  nesterov_ne_classical (9/10) 2 (1/10) 1 0 0 (by norm_num) (by norm_num)
    (by norm_num) (by norm_num)

/-! ## C3: constructor validation -/

/-- C3: Constructing the momentum optimizer fails exactly when the momentum
coefficient lies outside `[0,1]` or momentum is 0 with the Nesterov flag set;
in particular construction succeeds for every momentum in `[0,1]` with
Nesterov=false and every momentum in `(0,1]` with Nesterov=true. -/
theorem sgd_construct_fails_iff :
    (∀ lr m : ℚ, ∀ nesterov : Bool,
      (sgd_construct lr m nesterov = none ↔
        m < 0 ∨ 1 < m ∨ (m = 0 ∧ nesterov = true))) ∧
    (∀ lr m : ℚ, 0 ≤ m → m ≤ 1 → (sgd_construct lr m false).isSome) ∧
    (∀ lr m : ℚ, 0 < m → m ≤ 1 → (sgd_construct lr m true).isSome) := by
  refine ⟨fun lr m nesterov => ?_, fun lr m h0 h1 => ?_, fun lr m h0 h1 => ?_⟩ <;>
    simp only [sgd_construct]
  · split_ifs with h
    · simpa using h
    · simp only [reduceCtorEq, false_iff]
      exact h
  · rw [if_neg]
    · rfl
    · push_neg
      refine ⟨by linarith, by linarith, ?_⟩
      rintro - h
      exact absurd h (by simp)
  · rw [if_neg]
    · rfl
    · push_neg
      exact ⟨by linarith, by linarith, fun h => absurd h (by linarith)⟩

/-- C3 witness: `sgd_construct` at concrete inputs through the theorem. -/
theorem sgd_construct_fails_iff_witness :
    (sgd_construct 1 (1/2) false).isSome ∧
    (sgd_construct 1 1 true).isSome ∧
    sgd_construct 1 2 false = none ∧
    sgd_construct 1 0 true = none := by
  refine ⟨sgd_construct_fails_iff.2.1 1 (1/2) (by norm_num) (by norm_num),
    sgd_construct_fails_iff.2.2 1 1 (by norm_num) (by norm_num),
    (sgd_construct_fails_iff.1 1 2 false).mpr (by norm_num),
    (sgd_construct_fails_iff.1 1 0 true).mpr (by norm_num)⟩

end KerasSpec

namespace KerasSpec

/-! ## pad_sequences (keras/preprocessing/sequence.py lines 223-342),
specialized to flat integer sequences (`dtype=int32` modelled as `ℤ`). -/

/-- Truncation step of `pad_sequences`: `s[-maxlen:]` for `truncating='pre'`,
`s[:maxlen]` for `'post'`; any other mode raises `ValueError` (`none`). -/
def trunc_seq (maxlen : ℕ) (truncating : String) (s : List ℤ) : Option (List ℤ) :=
  if truncating = "pre" then some (s.drop (s.length - maxlen))
  else if truncating = "post" then some (s.take maxlen)
  else none

/-- Placement step of `pad_sequences`: the truncated sequence is written into
a row of `maxlen` copies of `value`, left-aligned (`x[idx, :len(trunc)]`) for
`padding='post'`, right-aligned (`x[idx, -len(trunc):]`) for `'pre'`; any
other mode raises `ValueError` (`none`). -/
def pad_row (maxlen : ℕ) (padding : String) (value : ℤ) (t : List ℤ) : Option (List ℤ) :=
  if padding = "post" then some (t ++ List.replicate (maxlen - t.length) value)
  else if padding = "pre" then some (List.replicate (maxlen - t.length) value ++ t)
  else none

/-- `pad_sequences(sequences, maxlen, dtype='int32', padding, truncating,
value)`: when `maxlen` is `None` it is the maximum sequence length; an empty
sequence is skipped (`continue`), leaving its all-`value` row. -/
def pad_sequences (sequences : List (List ℤ)) (maxlen : Option ℕ)
    (padding truncating : String) (value : ℤ) : Option (List (List ℤ)) :=
  let ml := maxlen.getD ((sequences.map List.length).foldr max 0)
  sequences.mapM (fun s =>
    if s.length = 0 then some (List.replicate ml value)
    else do
      let t ← trunc_seq ml truncating s
      pad_row ml padding value t)

/-! ## C7: worked examples of pad_sequences -/

/-- C7: `pad` with the defaults satisfies the spec's worked examples:
`pad([[1],[2,3],[4,5,6]]) = [[0,0,1],[0,2,3],[4,5,6]]`; with `fill_value=-1`
it is `[[-1,-1,1],[-1,2,3],[4,5,6]]`; with `pad_at='post'` it is
`[[1,0,0],[2,3,0],[4,5,6]]`; with `max_len=2` it is `[[0,1],[2,3],[5,6]]`
(pre-truncation keeps the last 2 elements of `[4,5,6]`). -/
theorem pad_sequences_worked_examples :
    pad_sequences [[1], [2, 3], [4, 5, 6]] none "pre" "pre" 0 =
      some [[0, 0, 1], [0, 2, 3], [4, 5, 6]] ∧
    pad_sequences [[1], [2, 3], [4, 5, 6]] none "pre" "pre" (-1) =
      some [[-1, -1, 1], [-1, 2, 3], [4, 5, 6]] ∧
    pad_sequences [[1], [2, 3], [4, 5, 6]] none "post" "pre" 0 =
      some [[1, 0, 0], [2, 3, 0], [4, 5, 6]] ∧
    pad_sequences [[1], [2, 3], [4, 5, 6]] (some 2) "pre" "pre" 0 =
      some [[0, 1], [2, 3], [5, 6]] := by
  refine ⟨?_, ?_, ?_, ?_⟩ <;> rfl

end KerasSpec

namespace KerasSpec

/-! ## Sparse (indexed) momentum update (spec-modelled) -/

/-- Summed gradient contribution for row `i` of a sparse gradient
(duplicate indices must have their contributions summed before use). -/
def sparse_sum (grad : List (ℕ × ℚ)) (i : ℕ) : ℚ :=
  ((grad.filter (fun p => p.1 == i)).map Prod.snd).sum

/-- One indexed-row application of the dense momentum formulas to the
`(variables, accumulators)` state at row `e.1` with row gradient `e.2`. -/
def apply_row (momentum lr : ℚ) (st : List ℚ × List ℚ) (e : ℕ × ℚ) :
    List ℚ × List ℚ :=
  let newAcc := momentum * st.2.getD e.1 0 - lr * e.2
  (st.1.set e.1 (st.1.getD e.1 0 + newAcc), st.2.set e.1 newAcc)

/-- Modelled from the spec: the sparse momentum update
(`optimizer_v2/gradient_descent.py` is not in the excerpt).  Per the spec,
the dense formulas are applied only to the rows present in the gradient's
index set, with duplicate indices summed first; rows not present are left
untouched in both variable and accumulator. -/
def sparse_momentum_step (momentum lr : ℚ) (vars accs : List ℚ)
    (grad : List (ℕ × ℚ)) : List ℚ × List ℚ :=
  ((grad.map Prod.fst).dedup.map (fun i => (i, sparse_sum grad i))).foldl
    (apply_row momentum lr) (vars, accs)

theorem foldl_apply_row_length (momentum lr : ℚ) :
    ∀ (L : List (ℕ × ℚ)) (st : List ℚ × List ℚ),
      (L.foldl (apply_row momentum lr) st).1.length = st.1.length ∧
      (L.foldl (apply_row momentum lr) st).2.length = st.2.length := by
  intro L
  induction L with
  | nil => exact fun st => ⟨rfl, rfl⟩
  | cons e L ih =>
    intro st
    simp only [List.foldl_cons]
    refine ⟨(ih _).1.trans ?_, (ih _).2.trans ?_⟩ <;> simp [apply_row]

theorem foldl_apply_row_frame (momentum lr : ℚ) :
    ∀ (L : List (ℕ × ℚ)) (st : List ℚ × List ℚ) (i : ℕ),
      i ∉ L.map Prod.fst →
      (L.foldl (apply_row momentum lr) st).1.getD i 0 = st.1.getD i 0 ∧
      (L.foldl (apply_row momentum lr) st).2.getD i 0 = st.2.getD i 0 := by
  intro L
  induction L with
  | nil => exact fun st i _ => ⟨rfl, rfl⟩
  | cons e L ih =>
    intro st i hi
    simp only [List.map_cons, List.mem_cons, not_or] at hi
    obtain ⟨hne, hrest⟩ := hi
    simp only [List.foldl_cons]
    have h := ih (apply_row momentum lr st e) i hrest
    refine ⟨h.1.trans ?_, h.2.trans ?_⟩ <;>
      simp [apply_row, List.getD, List.getElem?_set_ne (fun h => hne h.symm)]

theorem foldl_apply_row_hit (momentum lr : ℚ) :
    ∀ (L : List (ℕ × ℚ)) (st : List ℚ × List ℚ) (p : ℕ × ℚ),
      (L.map Prod.fst).Nodup → p ∈ L →
      p.1 < st.1.length → p.1 < st.2.length →
      (L.foldl (apply_row momentum lr) st).2.getD p.1 0 =
        momentum * st.2.getD p.1 0 - lr * p.2 ∧
      (L.foldl (apply_row momentum lr) st).1.getD p.1 0 =
        st.1.getD p.1 0 + (momentum * st.2.getD p.1 0 - lr * p.2) := by
  intro L
  induction L with
  | nil => intro st p _ hp; exact absurd hp (List.not_mem_nil p)
  | cons e L ih =>
    intro st p hnd hp h1 h2
    have hnd' : e.1 ∉ L.map Prod.fst ∧ (L.map Prod.fst).Nodup := by
      simpa [List.nodup_cons] using hnd
    simp only [List.foldl_cons]
    rcases List.mem_cons.mp hp with rfl | hpL
    · -- p is the head: apply_row writes row p.1, rest leaves it untouched
      have hfr := foldl_apply_row_frame momentum lr L
        (apply_row momentum lr st p) p.1 hnd'.1
      refine ⟨hfr.2.trans ?_, hfr.1.trans ?_⟩ <;>
        simp [apply_row, List.getD, List.getElem?_set_self, h1, h2]
    · -- p is in the tail: the head writes a different row
      have hne : e.1 ≠ p.1 := by
        intro h
        exact hnd'.1 (h ▸ List.mem_map_of_mem Prod.fst hpL)
      have hst1 : (apply_row momentum lr st e).1.getD p.1 0 = st.1.getD p.1 0 := by
        simp [apply_row, List.getD, List.getElem?_set_ne hne]
      have hst2 : (apply_row momentum lr st e).2.getD p.1 0 = st.2.getD p.1 0 := by
        simp [apply_row, List.getD, List.getElem?_set_ne hne]
      have hl1 : p.1 < (apply_row momentum lr st e).1.length := by
        simpa [apply_row] using h1
      have hl2 : p.1 < (apply_row momentum lr st e).2.length := by
        simpa [apply_row] using h2
      have := ih (apply_row momentum lr st e) p hnd'.2 hpL hl1 hl2
      rw [hst1, hst2] at this
      exact this

end KerasSpec

namespace KerasSpec

/-! ## C4: sparse update frame property -/

/-- C4: for every sparse gradient whose index set is a subset of the
variable's rows, one sparse update changes only the indexed rows of both the
variable and the accumulator: every row not in the index set keeps its prior
value in both, and every indexed row follows the dense formulas with
duplicate indices summed first. -/
theorem sparse_momentum_step_spec (momentum lr : ℚ) (vars accs : List ℚ)
    (grad : List (ℕ × ℚ))
    (hlen : vars.length = accs.length)
    (hidx : ∀ i ∈ grad.map Prod.fst, i < vars.length) :
    ((sparse_momentum_step momentum lr vars accs grad).1.length = vars.length ∧
     (sparse_momentum_step momentum lr vars accs grad).2.length = accs.length) ∧
    (∀ i, i ∉ grad.map Prod.fst →
      (sparse_momentum_step momentum lr vars accs grad).1.getD i 0 = vars.getD i 0 ∧
      (sparse_momentum_step momentum lr vars accs grad).2.getD i 0 = accs.getD i 0) ∧
    (∀ i ∈ grad.map Prod.fst,
      (sparse_momentum_step momentum lr vars accs grad).2.getD i 0 =
        momentum * accs.getD i 0 - lr * sparse_sum grad i ∧
      (sparse_momentum_step momentum lr vars accs grad).1.getD i 0 =
        vars.getD i 0 + (momentum * accs.getD i 0 - lr * sparse_sum grad i)) := by
  set agg := (grad.map Prod.fst).dedup.map (fun i => (i, sparse_sum grad i)) with hagg
  have hfst : agg.map Prod.fst = (grad.map Prod.fst).dedup := by
    simp [hagg, List.map_map, Function.comp_def]
  refine ⟨⟨(foldl_apply_row_length momentum lr agg (vars, accs)).1,
           (foldl_apply_row_length momentum lr agg (vars, accs)).2⟩, ?_, ?_⟩
  · intro i hi
    have : i ∉ agg.map Prod.fst := by
      rw [hfst]
      exact fun h => hi (List.mem_dedup.mp h)
    exact foldl_apply_row_frame momentum lr agg (vars, accs) i this
  · intro i hi
    have hmem : (i, sparse_sum grad i) ∈ agg :=
      List.mem_map_of_mem _ (List.mem_dedup.mpr hi)
    have hnd : (agg.map Prod.fst).Nodup := by
      rw [hfst]; exact (grad.map Prod.fst).nodup_dedup
    have h := foldl_apply_row_hit momentum lr agg (vars, accs)
      (i, sparse_sum grad i) hnd hmem (hidx i hi) (hlen ▸ hidx i hi)
    exact h

/-- C4 witness: concrete sparse update with a duplicated index, applied
through the theorem. -/
theorem sparse_momentum_step_spec_witness :
    (sparse_momentum_step (9/10) 2 [1, 2, 3] [0, 0, 0] [(1, 1/10), (1, 1/10)]).2.getD 1 0 =
      (9/10) * 0 - 2 * sparse_sum [(1, 1/10), (1, 1/10)] 1 ∧
    (sparse_momentum_step (9/10) 2 [1, 2, 3] [0, 0, 0] [(1, 1/10), (1, 1/10)]).1.getD 0 0 = 1 ∧
    (sparse_momentum_step (9/10) 2 [1, 2, 3] [0, 0, 0] [(1, 1/10), (1, 1/10)]).2.getD 2 0 = 0 := by
  have h := sparse_momentum_step_spec (9/10) 2 [1, 2, 3] [0, 0, 0]
    [(1, 1/10), (1, 1/10)] (by decide) (by decide)
  exact ⟨(h.2.2 1 (by decide)).1, (h.2.1 0 (by decide)).1, (h.2.1 2 (by decide)).2⟩

end KerasSpec

namespace KerasSpec

/-! ## skipgrams (keras/preprocessing/sequence.py lines 385-479)

Randomness is modelled abstractly: `PyRandom.perm seed n` is the position
permutation that Python's `random.shuffle` applies to a length-`n` list after
`random.seed(seed)`, and `negDraw i` parameterizes the value of the `i`-th
call to `random.randint(1, vocabulary_size - 1)` (the result is mapped into
`[1, vocabulary_size - 1]` as `1 + negDraw i % (vocabulary_size - 1)`).
`word_seed` stands for the hidden generator state at the unseeded
`random.shuffle(words)` call. -/

/-- Modelled from the spec: after `random.seed(seed)`, `random.shuffle`
applies a position permutation that depends only on the seed and on the
length of the list being shuffled (the module `random` is external to the
excerpt). -/
structure PyRandom where
  perm : ℕ → ℕ → ℕ → ℕ
  perm_lt : ∀ s n k, k < n → perm s n k < n
  perm_inj : ∀ s n k l, k < n → l < n → perm s n k = perm s n l → k = l

/-- The trivial generator whose shuffles are the identity permutation. -/
def idRandom : PyRandom where
  perm := fun _ _ k => k
  perm_lt := fun _ _ _ h => h
  perm_inj := fun _ _ _ _ _ _ h => h

/-- `random.seed(seed); random.shuffle(l)` under a `PyRandom` model:
position `k` of the result holds the element at position `perm seed n k`.
`d` is an unused fallback element. -/
def seeded_shuffle (R : PyRandom) (seed : ℕ) (d : α) (l : List α) : List α :=
  (List.range l.length).map (fun k => l.getD (R.perm seed l.length k) d)

/-- The positive skip-gram couples: for each position `i` with
`wi = sequence[i] != 0`, and each `j` in
`[max(0, i - window_size), min(len(sequence), i + window_size + 1))` with
`j != i` and `wj = sequence[j] != 0`, the couple `(wi, wj)`
(sequence.py lines 436-456, with `sampling_table=None`). -/
def positive_couples (sequence : List ℕ) (window_size : ℕ) : List (ℕ × ℕ) :=
  (List.range sequence.length).flatMap (fun i =>
    let wi := sequence.getD i 0
    if wi = 0 then []
    else
      let ws := i - window_size
      let we := min sequence.length (i + window_size + 1)
      (List.range' ws (we - ws)).filterMap (fun j =>
        if j = i then none
        else
          let wj := sequence.getD j 0
          if wj = 0 then none else some (wi, wj)))

/-- `skipgrams` before the final shuffle step: positive couples with label 1,
then, if `negative_samples > 0`, `int(len(labels) * negative_samples)`
negative couples pairing the shuffled positive centers (cyclically) with
random tokens in `[1, vocabulary_size - 1]`, with label 0
(sequence.py lines 436-469, `categorical=False`). -/
def skipgrams_raw (R : PyRandom) (word_seed : ℕ) (negDraw : ℕ → ℕ)
    (sequence : List ℕ) (vocabulary_size window_size : ℕ)
    (negative_samples : ℚ) : List (ℕ × ℕ) × List ℕ :=
  let couples := positive_couples sequence window_size
  let labels := List.replicate couples.length 1
  if 0 < negative_samples then
    let num := (⌊(couples.length : ℚ) * negative_samples⌋).toNat
    let words := seeded_shuffle R word_seed 0 (couples.map Prod.fst)
    (couples ++ (List.range num).map (fun i =>
        (words.getD (i % words.length) 0, 1 + negDraw i % (vocabulary_size - 1))),
     labels ++ List.replicate num 0)
  else (couples, labels)

/-- `skipgrams` (sequence.py lines 385-479): if `shuffle`, the generator is
reseeded with the same `seed` before shuffling the couples and again before
shuffling the labels. -/
def skipgrams (R : PyRandom) (word_seed seed : ℕ) (negDraw : ℕ → ℕ)
    (sequence : List ℕ) (vocabulary_size window_size : ℕ)
    (negative_samples : ℚ) (shuffle : Bool) : List (ℕ × ℕ) × List ℕ :=
  let cl := skipgrams_raw R word_seed negDraw sequence vocabulary_size
    window_size negative_samples
  if shuffle then
    (seeded_shuffle R seed (0, 0) cl.1, seeded_shuffle R seed 0 cl.2)
  else cl

/-- The claim's count of valid window co-occurrences: positions `(i, j)` with
`j ∈ [max(0, i - window_size), min(len, i + window_size + 1))`, `j ≠ i`,
`sequence[i] ≠ 0` and `sequence[j] ≠ 0`. -/
def spec_pair_count (sequence : List ℕ) (window_size : ℕ) : ℕ :=
  ((List.range sequence.length).map (fun i =>
    ((List.range sequence.length).filter (fun j =>
      decide (i - window_size ≤ j) &&
      decide (j < min sequence.length (i + window_size + 1)) &&
      decide (j ≠ i) &&
      decide (sequence.getD i 0 ≠ 0) &&
      decide (sequence.getD j 0 ≠ 0))).length)).sum

end KerasSpec

namespace KerasSpec

theorem length_seeded_shuffle (R : PyRandom) (s : ℕ) (d : α) (l : List α) :
    (seeded_shuffle R s d l).length = l.length := by
  simp [seeded_shuffle]

theorem map_getD_range (l : List α) (d : α) :
    (List.range l.length).map (fun j => l.getD j d) = l := by
  apply List.ext_getElem
  · simp
  · intro i h1 h2
    simp only [List.getElem_map, List.getElem_range]
    exact List.getD_eq_getElem l d h2

theorem seeded_shuffle_perm (R : PyRandom) (s : ℕ) (d : α) (l : List α) :
    (seeded_shuffle R s d l).Perm l := by
  have h1 : seeded_shuffle R s d l =
      ((List.range l.length).map (R.perm s l.length)).map (fun j => l.getD j d) := by
    simp [seeded_shuffle, List.map_map, Function.comp_def]
  have h2 : ((List.range l.length).map (R.perm s l.length)).Perm (List.range l.length) := by
    apply List.Subperm.perm_of_length_le
    · apply List.subperm_of_subset
      · exact (List.nodup_range l.length).map_on (fun x hx y hy hxy =>
          R.perm_inj s l.length x y (List.mem_range.mp hx) (List.mem_range.mp hy) hxy)
      · intro x hx
        obtain ⟨k, hk, rfl⟩ := List.mem_map.mp hx
        exact List.mem_range.mpr (R.perm_lt s l.length k (List.mem_range.mp hk))
    · simp
  have h3 := h2.map (fun j => l.getD j d)
  rw [map_getD_range] at h3
  exact h1 ▸ h3

theorem getD_zip (a : List α) (b : List β) (j : ℕ) (da : α) (db : β)
    (h : j < a.length) (hb : j < b.length) :
    (a.zip b).getD j (da, db) = (a.getD j da, b.getD j db) := by
  have hz : j < (a.zip b).length := by rw [List.length_zip]; omega
  rw [List.getD_eq_getElem _ _ hz, List.getD_eq_getElem _ _ h,
    List.getD_eq_getElem _ _ hb, List.getElem_zip]

theorem seeded_shuffle_zip (R : PyRandom) (s : ℕ) (da : α) (db : β)
    (a : List α) (b : List β) (h : a.length = b.length) :
    (seeded_shuffle R s da a).zip (seeded_shuffle R s db b) =
      seeded_shuffle R s (da, db) (a.zip b) := by
  have hz : (a.zip b).length = a.length := by rw [List.length_zip, h, Nat.min_self]
  simp only [seeded_shuffle, hz, ← h, List.zip_map']
  apply List.map_congr_left
  intro k hk
  have hk' : k < a.length := List.mem_range.mp hk
  have hp : R.perm s a.length k < a.length := R.perm_lt s a.length k hk'
  exact (getD_zip a b _ da db hp (h ▸ hp)).symm

end KerasSpec

namespace KerasSpec

theorem countP_range_window (p : ℕ → Bool) (ws we n : ℕ) (h1 : ws ≤ we) (h2 : we ≤ n) :
    (List.range n).countP (fun j => decide (ws ≤ j) && decide (j < we) && p j) =
    (List.range' ws (we - ws)).countP p := by
  have hsplit : List.range n =
      List.range' 0 ws ++ List.range' ws (we - ws) ++ List.range' we (n - we) := by
    rw [List.range_eq_range']
    have e1 : List.range' 0 ws ++ List.range' ws (we - ws) = List.range' 0 we := by
      have := List.range'_append 0 ws (we - ws) 1
      simp only [Nat.one_mul, Nat.zero_add] at this
      rw [this]
      congr 1
      omega
    have e2 : List.range' 0 we ++ List.range' we (n - we) = List.range' 0 n := by
      have := List.range'_append 0 we (n - we) 1
      simp only [Nat.one_mul, Nat.zero_add] at this
      rw [this]
      congr 1
      omega
    rw [e1, e2]
  rw [hsplit, List.countP_append, List.countP_append]
  have hlow : (List.range' 0 ws).countP
      (fun j => decide (ws ≤ j) && decide (j < we) && p j) = 0 := by
    rw [List.countP_eq_zero]
    intro j hj
    have := (List.mem_range'_1.mp hj).2
    simp only [Bool.and_eq_true, decide_eq_true_eq, not_and]
    intro h
    omega
  have hhigh : (List.range' we (n - we)).countP
      (fun j => decide (ws ≤ j) && decide (j < we) && p j) = 0 := by
    rw [List.countP_eq_zero]
    intro j hj
    have := (List.mem_range'_1.mp hj).1
    simp only [Bool.and_eq_true, decide_eq_true_eq, not_and]
    intro h h'
    omega
  have hmid : (List.range' ws (we - ws)).countP
      (fun j => decide (ws ≤ j) && decide (j < we) && p j) =
      (List.range' ws (we - ws)).countP p := by
    apply List.countP_congr
    intro j hj
    have hm := List.mem_range'_1.mp hj
    have ha : ws ≤ j := hm.1
    have hb : j < we := by omega
    simp [ha, hb]
  rw [hlow, hmid, hhigh]
  omega

theorem positive_couples_nonzero (sequence : List ℕ) (w : ℕ) :
    ∀ p ∈ positive_couples sequence w, p.1 ≠ 0 ∧ p.2 ≠ 0 := by
  intro p hp
  simp only [positive_couples] at hp
  simp at hp
  obtain ⟨i, hi, h0, j, hj, hji, hz, hpair⟩ := hp
  rw [← hpair]
  exact ⟨h0, hz⟩

end KerasSpec

namespace KerasSpec

theorem positive_couples_length (sequence : List ℕ) (w : ℕ) :
    (positive_couples sequence w).length = spec_pair_count sequence w := by
  rw [positive_couples, spec_pair_count, List.length_flatMap]
  congr 1
  apply List.map_congr_left
  intro i hi
  have hi' : i < sequence.length := List.mem_range.mp hi
  simp only [Function.comp_apply]
  split_ifs with h
  · symm
    rw [← List.countP_eq_length_filter]
    simp only [List.length_nil]
    rw [List.countP_eq_zero]
    intro j hj
    simp only [h]
    simp
  · have hws : i - w ≤ min sequence.length (i + w + 1) := by omega
    have hwe : min sequence.length (i + w + 1) ≤ sequence.length := Nat.min_le_left _ _
    have lhs : List.countP
        (fun j => (if j = i then none
          else if sequence.getD j 0 = 0 then none
          else some (sequence.getD i 0, sequence.getD j 0)).isSome)
        (List.range' (i - w) (min sequence.length (i + w + 1) - (i - w))) =
      List.countP (fun j => decide (j ≠ i) && decide (sequence.getD j 0 ≠ 0))
        (List.range' (i - w) (min sequence.length (i + w + 1) - (i - w))) := by
      apply List.countP_congr
      intro j hj
      by_cases hji : j = i <;> by_cases hz : sequence.getD j 0 = 0 <;>
        simp [hji, hz]
    rw [List.length_filterMap_eq_countP, ← List.countP_eq_length_filter, lhs,
      ← countP_range_window (fun j => decide (j ≠ i) && decide (sequence.getD j 0 ≠ 0))
        (i - w) (min sequence.length (i + w + 1)) sequence.length hws hwe]
    apply List.countP_congr
    intro j hj
    have h' : ¬sequence[i]?.getD 0 = 0 := by simpa using h
    by_cases hji : j = i
    · simp [hji]
    · by_cases hz : sequence.getD j 0 = 0
      · have hz' : sequence[j]?.getD 0 = 0 := by simpa using hz
        simp [hji, hz, hz']
      · have hz' : ¬sequence[j]?.getD 0 = 0 := by simpa using hz
        simp [hji, hz, hz', h, h', Bool.and_assoc]

end KerasSpec

namespace KerasSpec

theorem skipgrams_raw_length_eq (R : PyRandom) (word_seed : ℕ) (negDraw : ℕ → ℕ)
    (sequence : List ℕ) (vocabulary_size window_size : ℕ) (negative_samples : ℚ) :
    (skipgrams_raw R word_seed negDraw sequence vocabulary_size window_size negative_samples).1.length =
    (skipgrams_raw R word_seed negDraw sequence vocabulary_size window_size negative_samples).2.length := by
  simp only [skipgrams_raw]
  split_ifs with h <;> simp

theorem skipgrams_raw_count_one (R : PyRandom) (word_seed : ℕ) (negDraw : ℕ → ℕ)
    (sequence : List ℕ) (vocabulary_size window_size : ℕ) (negative_samples : ℚ) :
    (skipgrams_raw R word_seed negDraw sequence vocabulary_size window_size negative_samples).2.count 1 =
    (positive_couples sequence window_size).length := by
  simp only [skipgrams_raw]
  split_ifs with h <;> simp [List.count_append, List.count_replicate]

theorem skipgrams_raw_nonzero (R : PyRandom) (word_seed : ℕ) (negDraw : ℕ → ℕ)
    (sequence : List ℕ) (vocabulary_size window_size : ℕ) (negative_samples : ℚ) :
    ∀ p ∈ (skipgrams_raw R word_seed negDraw sequence vocabulary_size window_size negative_samples).1,
      p.1 ≠ 0 ∧ p.2 ≠ 0 := by
  intro p hp
  simp only [skipgrams_raw] at hp
  split_ifs at hp with hns
  · rcases List.mem_append.mp hp with hpos | hneg
    · exact positive_couples_nonzero sequence window_size p hpos
    · obtain ⟨i, hi, hpi⟩ := List.mem_map.mp hneg
      have hiN := List.mem_range.mp hi
      have hC : 0 < (positive_couples sequence window_size).length := by
        rcases Nat.eq_zero_or_pos (positive_couples sequence window_size).length with hcl | hcl
        · rw [hcl] at hiN
          simp at hiN
        · exact hcl
      have hWlen : (seeded_shuffle R word_seed 0
          ((positive_couples sequence window_size).map Prod.fst)).length =
          (positive_couples sequence window_size).length := by
        rw [length_seeded_shuffle, List.length_map]
      have hWpos : 0 < (seeded_shuffle R word_seed 0
          ((positive_couples sequence window_size).map Prod.fst)).length := by omega
      have hk := Nat.mod_lt i hWpos
      have hmemW : (seeded_shuffle R word_seed 0
          ((positive_couples sequence window_size).map Prod.fst)).getD
          (i % (seeded_shuffle R word_seed 0
            ((positive_couples sequence window_size).map Prod.fst)).length) 0 ∈
          seeded_shuffle R word_seed 0
            ((positive_couples sequence window_size).map Prod.fst) := by
        rw [List.getD_eq_getElem _ _ hk]
        exact List.getElem_mem hk
      have hmemC := (seeded_shuffle_perm R word_seed 0
        ((positive_couples sequence window_size).map Prod.fst)).mem_iff.mp hmemW
      obtain ⟨c, hcC, hfst⟩ := List.mem_map.mp hmemC
      subst hpi
      refine ⟨?_, by omega⟩
      rw [← hfst]
      exact (positive_couples_nonzero sequence window_size c hcC).1
  · exact positive_couples_nonzero sequence window_size p hp

end KerasSpec

namespace KerasSpec

/-! ## C5: no zero tokens, and exact positive-pair count -/

/-- C5: for every input sequence (with `vocabulary_size ≥ 2` whenever
negative samples are requested) and no sampling table, `skipgrams` never
emits a pair (positive or negative) containing token 0 as either element,
and the number of positive pairs emitted (label-1 entries) equals exactly
the number of position pairs `(i, j)` with
`j ∈ [max(0, i - window_size), min(len, i + window_size + 1))`, `j ≠ i`,
`sequence[i] ≠ 0` and `sequence[j] ≠ 0`. -/
theorem skipgrams_no_zero_and_positive_count (R : PyRandom)
    (word_seed seed : ℕ) (negDraw : ℕ → ℕ) (sequence : List ℕ)
    (vocabulary_size window_size : ℕ) (negative_samples : ℚ) (shuffle : Bool)
    (_hvocab : 0 < negative_samples → 2 ≤ vocabulary_size) :
    (∀ p ∈ (skipgrams R word_seed seed negDraw sequence vocabulary_size
        window_size negative_samples shuffle).1, p.1 ≠ 0 ∧ p.2 ≠ 0) ∧
    (skipgrams R word_seed seed negDraw sequence vocabulary_size
        window_size negative_samples shuffle).2.count 1 =
      spec_pair_count sequence window_size := by
  have hraw1 := skipgrams_raw_nonzero R word_seed negDraw sequence
    vocabulary_size window_size negative_samples
  have hraw2 := skipgrams_raw_count_one R word_seed negDraw sequence
    vocabulary_size window_size negative_samples
  rw [skipgrams]
  cases shuffle
  · exact ⟨hraw1, hraw2.trans (positive_couples_length sequence window_size)⟩
  · simp only [if_true]
    constructor
    · intro p hp
      exact hraw1 p ((seeded_shuffle_perm R seed (0, 0) _).mem_iff.mp hp)
    · rw [(seeded_shuffle_perm R seed 0 _).count_eq 1, hraw2,
        positive_couples_length]

/-- C5 witness: the theorem applied at a concrete sequence with negative
sampling and shuffling enabled. -/
theorem skipgrams_no_zero_and_positive_count_witness :
    (∀ p ∈ (skipgrams idRandom 0 0 (fun _ => 0) [0, 1, 2, 1] 5 1 1 true).1,
      p.1 ≠ 0 ∧ p.2 ≠ 0) ∧
    (skipgrams idRandom 0 0 (fun _ => 0) [0, 1, 2, 1] 5 1 1 true).2.count 1 =
      spec_pair_count [0, 1, 2, 1] 1 :=
  skipgrams_no_zero_and_positive_count idRandom 0 0 (fun _ => 0) [0, 1, 2, 1]
    5 1 1 true (fun _ => by norm_num)

/-! ## C6: same-seed double shuffle preserves the pairing -/

/-- C6: with `shuffle = true`, the couples list and the labels list are each
shuffled after reseeding with the same seed; since both lists have equal
length, the same position permutation is applied to both, so the returned
`(couples, labels)` are a single common permutation of the pre-shuffle lists
and the multiset of `(couple, label)` associations is exactly preserved. -/
theorem skipgrams_shuffle_common_permutation (R : PyRandom)
    (word_seed seed : ℕ) (negDraw : ℕ → ℕ) (sequence : List ℕ)
    (vocabulary_size window_size : ℕ) (negative_samples : ℚ) :
    (skipgrams R word_seed seed negDraw sequence vocabulary_size window_size
        negative_samples true).1 =
      seeded_shuffle R seed (0, 0) (skipgrams_raw R word_seed negDraw sequence
        vocabulary_size window_size negative_samples).1 ∧
    (skipgrams R word_seed seed negDraw sequence vocabulary_size window_size
        negative_samples true).2 =
      seeded_shuffle R seed 0 (skipgrams_raw R word_seed negDraw sequence
        vocabulary_size window_size negative_samples).2 ∧
    ((skipgrams R word_seed seed negDraw sequence vocabulary_size window_size
        negative_samples true).1).Perm
      ((skipgrams_raw R word_seed negDraw sequence vocabulary_size window_size
        negative_samples).1) ∧
    ((skipgrams R word_seed seed negDraw sequence vocabulary_size window_size
        negative_samples true).2).Perm
      ((skipgrams_raw R word_seed negDraw sequence vocabulary_size window_size
        negative_samples).2) ∧
    ((skipgrams R word_seed seed negDraw sequence vocabulary_size window_size
        negative_samples true).1.zip
      (skipgrams R word_seed seed negDraw sequence vocabulary_size window_size
        negative_samples true).2).Perm
      ((skipgrams_raw R word_seed negDraw sequence vocabulary_size window_size
        negative_samples).1.zip
       (skipgrams_raw R word_seed negDraw sequence vocabulary_size window_size
        negative_samples).2) := by
  refine ⟨rfl, rfl, seeded_shuffle_perm R seed (0, 0) _,
    seeded_shuffle_perm R seed 0 _, ?_⟩
  have h := skipgrams_raw_length_eq R word_seed negDraw sequence
    vocabulary_size window_size negative_samples
  show ((seeded_shuffle R seed (0, 0) _).zip (seeded_shuffle R seed 0 _)).Perm _
  rw [seeded_shuffle_zip R seed (0, 0) 0 _ _ h]
  exact seeded_shuffle_perm R seed ((0, 0), 0) _

end KerasSpec

namespace KerasSpec

/-! ## TimeseriesGenerator (keras/preprocessing/sequence.py lines 48-218) -/

/-- `np.arange(a, b, step)` over naturals: `a, a+step, ...` while `< b`. -/
def arange (a b step : ℕ) : List ℕ :=
  List.range' a ((b - a + step - 1) / step) step

/-- The `TimeseriesGenerator` state after `__init__`: `start_index` is the
internally shifted `start_index + length` (sequence.py line 132). -/
structure TSG where
  data : List ℤ
  targets : List ℤ
  length : ℕ
  sampling_rate : ℕ
  stride : ℕ
  start_index : ℕ
  end_index : ℕ
  shuffle : Bool
  reverse : Bool
  batch_size : ℕ

/-- `TimeseriesGenerator.__init__`: raises `ValueError` (`none`) when
`len(data) != len(targets)` or when `start_index + length > end_index`
(with `end_index` defaulting to `len(data) - 1`). -/
def TSG.make (data targets : List ℤ) (length : ℕ) (sampling_rate stride : ℕ)
    (start_index : ℕ) (end_index : Option ℕ) (shuffle reverse : Bool)
    (batch_size : ℕ) : Option TSG :=
  if data.length ≠ targets.length then none
  else
    let s := start_index + length
    let e := end_index.getD (data.length - 1)
    if e < s then none
    else some ⟨data, targets, length, sampling_rate, stride, s, e,
      shuffle, reverse, batch_size⟩

/-- `TimeseriesGenerator.__len__` (sequence.py lines 146-149). -/
def TSG.len (g : TSG) : ℕ :=
  (g.end_index - g.start_index + g.batch_size * g.stride) /
    (g.batch_size * g.stride)

/-- The end-point rows of non-shuffled batch `index`
(`TimeseriesGenerator.__getitem__`, sequence.py lines 155-159):
`np.arange(i, min(i + batch_size * stride, end_index + 1), stride)` with
`i = start_index + batch_size * stride * index`. -/
def TSG.rows (g : TSG) (index : ℕ) : List ℕ :=
  let i := g.start_index + g.batch_size * g.stride * index
  arange i (min (i + g.batch_size * g.stride) (g.end_index + 1)) g.stride

/-- `TimeseriesGenerator.get_config` (sequence.py lines 169-202): every
field is reported as stored; in particular `start_index` is the shifted
`self.start_index`. -/
structure TSGConfig where
  data : List ℤ
  targets : List ℤ
  length : ℕ
  sampling_rate : ℕ
  stride : ℕ
  start_index : ℕ
  end_index : ℕ
  shuffle : Bool
  reverse : Bool
  batch_size : ℕ

/-- `get_config` as a record of the JSON-compatible values. -/
def TSG.get_config (g : TSG) : TSGConfig :=
  ⟨g.data, g.targets, g.length, g.sampling_rate, g.stride, g.start_index,
    g.end_index, g.shuffle, g.reverse, g.batch_size⟩

end KerasSpec

namespace KerasSpec

theorem arange_eq_nil (a b step : ℕ) (h : b ≤ a) : arange a b step = [] := by
  unfold arange
  have hba : b - a = 0 := by omega
  rw [hba]
  rcases Nat.eq_zero_or_pos step with hs | hs
  · subst hs
    rfl
  · have : (0 + step - 1) / step = 0 := by
      apply Nat.div_eq_of_lt
      omega
    rw [this]
    rfl

theorem arange_ne_nil (a b step : ℕ) (hst : 1 ≤ step) (h : a < b) :
    arange a b step ≠ [] := by
  unfold arange
  intro he
  have hlen : ((b - a + step - 1) / step) = 0 := by
    have : (List.range' a ((b - a + step - 1) / step) step).length =
        (b - a + step - 1) / step := by simp
    rw [he] at this
    simpa using this.symm
  have hpos : 1 ≤ (b - a + step - 1) / step := by
    rw [Nat.le_div_iff_mul_le (by omega)]
    omega
  omega

theorem arange_chunk (a B K step : ℕ) (hst : 1 ≤ step) (hdvd : step ∣ K) :
    arange a B step = arange a (min (a + K) B) step ++ arange (a + K) B step := by
  rcases le_or_lt B (a + K) with hc | hc
  · rw [Nat.min_eq_right hc, arange_eq_nil (a + K) B step hc, List.append_nil]
  · rw [Nat.min_eq_left (by omega)]
    unfold arange
    obtain ⟨q, hq⟩ := hdvd
    have h1 : (a + K - a + step - 1) / step = q := by
      rw [Nat.add_sub_cancel_left, hq,
        Nat.add_sub_assoc (by omega : 1 ≤ step) (step * q),
        Nat.mul_add_div (by omega : 0 < step)]
      have h0 : (step - 1) / step = 0 := Nat.div_eq_of_lt (by omega)
      omega
    rw [h1]
    have happ := List.range'_append a q ((B - (a + K) + step - 1) / step) step
    rw [← hq] at happ
    rw [happ]
    congr 1
    have hD : B - a + step - 1 = step * q + (B - (a + K) + step - 1) := by
      rw [← hq]
      omega
    rw [hD, Nat.mul_add_div (by omega : 0 < step)]
    omega

end KerasSpec

namespace KerasSpec

theorem flatMap_chunks (K step : ℕ) (hst : 1 ≤ step) (hK : 1 ≤ K) (hdvd : step ∣ K) :
    ∀ (m a B : ℕ), a < B → m = (B - 1 - a + K) / K →
    (List.range m).flatMap
      (fun b => arange (a + K * b) (min (a + K * b + K) B) step) = arange a B step := by
  intro m
  induction m with
  | zero =>
    intro a B hab hm
    exfalso
    have h1 : 1 ≤ (B - 1 - a + K) / K := by
      rw [Nat.le_div_iff_mul_le (by omega)]
      omega
    omega
  | succ m ih =>
    intro a B hab hm
    rw [List.range_succ_eq_map, List.flatMap_cons, List.flatMap_map]
    have hhead : a + K * 0 = a := by omega
    rcases le_or_lt B (a + K) with hc | hc
    · -- single batch: m = 0
      have hdiv : (B - 1 - a + K) / K = 1 := by
        apply Nat.div_eq_of_lt_le
        · omega
        · omega
      have hm0 : m = 0 := by omega
      subst hm0
      simp only [List.range_zero, List.map_nil, List.flatMap_nil, List.append_nil]
      rw [hhead]
      rw [Nat.min_eq_right (by omega)]
    · -- first chunk plus the rest
      have htail : (List.range m).flatMap
          (fun b => arange (a + K * b.succ) (min (a + K * b.succ + K) B) step) =
          arange (a + K) B step := by
        have hshift : (fun b : ℕ => arange (a + K * b.succ) (min (a + K * b.succ + K) B) step) =
            (fun b => arange ((a + K) + K * b) (min ((a + K) + K * b + K) B) step) := by
          funext b
          rw [Nat.succ_eq_add_one, show a + K * (b + 1) = a + K + K * b by ring]
        rw [hshift]
        apply ih (a + K) B hc
        have hx : B - 1 - a + K = (B - 1 - (a + K) + K) + K := by omega
        rw [hx, Nat.add_div_right _ (by omega : 0 < K)] at hm
        omega
      rw [htail, hhead]
      exact (arange_chunk a B K step hst hdvd).symm

end KerasSpec

namespace KerasSpec

/-- C8: for every validly constructed windowed batch generator (equal-length
data and targets, `start_index + length ≤ end_index`, `batch_size ≥ 1`,
`stride ≥ 1`), the reported length equals
`(end_index - start_index - length + batch_size*stride) // (batch_size*stride)`,
which equals `ceil((usable_range + 1) / (batch_size*stride))` in integer
arithmetic; every non-shuffled batch index below the count yields a non-empty
batch, every index at or above it yields none, and the batches together
enumerate each stride-spaced end-point in `[start, end]` exactly once. -/
theorem TSG_len_and_batches (data targets : List ℤ) (L sr stride s e : ℕ)
    (sh rv : Bool) (bs : ℕ) (g : TSG)
    (hmake : TSG.make data targets L sr stride s (some e) sh rv bs = some g)
    (hbs : 1 ≤ bs) (hst : 1 ≤ stride) :
    g.len = (e - s - L + bs * stride) / (bs * stride) ∧
    g.len = ((e - (s + L) + 1) + bs * stride - 1) / (bs * stride) ∧
    (∀ b, b < g.len → g.rows b ≠ []) ∧
    (∀ b, g.len ≤ b → g.rows b = []) ∧
    (List.range g.len).flatMap g.rows = arange g.start_index (g.end_index + 1) g.stride := by
  simp only [TSG.make, Option.getD_some] at hmake
  split_ifs at hmake with h1 h2
  injection hmake with hg
  subst hg
  have hK : 1 ≤ bs * stride := by
    calc 1 = 1 * 1 := by omega
    _ ≤ bs * stride := Nat.mul_le_mul hbs hst
  have hse : s + L ≤ e := by omega
  have hlen : TSG.len ⟨data, targets, L, sr, stride, s + L, e, sh, rv, bs⟩ =
      (e - (s + L)) / (bs * stride) + 1 := by
    show (e - (s + L) + bs * stride) / (bs * stride) = _
    exact Nat.add_div_right _ (by omega)
  refine ⟨?_, ?_, ?_, ?_, ?_⟩
  · show (e - (s + L) + bs * stride) / (bs * stride) = _
    congr 1
    omega
  · show (e - (s + L) + bs * stride) / (bs * stride) = _
    congr 1
    omega
  · intro b hb
    rw [hlen] at hb
    show arange (s + L + bs * stride * b)
      (min (s + L + bs * stride * b + bs * stride) (e + 1)) stride ≠ []
    apply arange_ne_nil _ _ _ hst
    have hble : b ≤ (e - (s + L)) / (bs * stride) := by omega
    have hmul : bs * stride * b ≤ bs * stride * ((e - (s + L)) / (bs * stride)) :=
      Nat.mul_le_mul_left _ hble
    have hdml : (e - (s + L)) / (bs * stride) * (bs * stride) ≤ e - (s + L) :=
      Nat.div_mul_le_self _ _
    rw [Nat.mul_comm ((e - (s + L)) / (bs * stride)) (bs * stride)] at hdml
    apply lt_min
    · omega
    · omega
  · intro b hb
    rw [hlen] at hb
    show arange (s + L + bs * stride * b)
      (min (s + L + bs * stride * b + bs * stride) (e + 1)) stride = []
    apply arange_eq_nil
    have hdm := Nat.div_add_mod (e - (s + L)) (bs * stride)
    have hmod := Nat.mod_lt (e - (s + L)) (show 0 < bs * stride by omega)
    have hmul : bs * stride * ((e - (s + L)) / (bs * stride) + 1) ≤ bs * stride * b :=
      Nat.mul_le_mul_left _ hb
    rw [Nat.mul_add, Nat.mul_one] at hmul
    have : e + 1 ≤ s + L + bs * stride * b := by omega
    calc min (s + L + bs * stride * b + bs * stride) (e + 1) ≤ e + 1 :=
          Nat.min_le_right _ _
      _ ≤ s + L + bs * stride * b := this
  · have hdvd : stride ∣ bs * stride := dvd_mul_left stride bs
    exact flatMap_chunks (bs * stride) stride hst hK hdvd _ (s + L) (e + 1)
      (by omega) (by congr 1)

end KerasSpec

namespace KerasSpec

/-- C10: `get_config()` reports the key `start_index` as the internally
shifted `s + length`, not the constructor argument `s`; consequently feeding
a generator's own config back to the constructor shifts the usable window by
a further `length`. -/
theorem TSG_get_config_start_index_shifted (data targets : List ℤ)
    (L sr stride s : ℕ) (e : Option ℕ) (sh rv : Bool) (bs : ℕ) (g : TSG)
    (hmake : TSG.make data targets L sr stride s e sh rv bs = some g) :
    g.get_config.start_index = s + L ∧
    (∀ g', TSG.make data targets L sr stride (g.get_config.start_index)
        (some g.get_config.end_index) sh rv bs = some g' →
      g'.start_index = s + 2 * L) := by
  simp only [TSG.make] at hmake
  split_ifs at hmake
  injection hmake with hg
  subst hg
  refine ⟨rfl, ?_⟩
  intro g' h'
  simp only [TSG.make, TSG.get_config, Option.getD_some] at h'
  split_ifs at h'
  injection h' with hg'
  subst hg'
  show s + L + L = s + 2 * L
  omega

/-- C10 witness: the theorem applied to a concrete generator. -/
theorem TSG_get_config_start_index_shifted_witness :
    ((⟨List.replicate 10 0, List.replicate 10 0, 2, 1, 2, 3, 9,
        false, false, 2⟩ : TSG)).get_config.start_index = 1 + 2 ∧
    ((⟨List.replicate 10 0, List.replicate 10 0, 2, 1, 2, 5, 9,
        false, false, 2⟩ : TSG)).start_index = 1 + 2 * 2 := by
  have hmake : TSG.make (List.replicate 10 0) (List.replicate 10 0) 2 1 2 1
      none false false 2 = some ⟨List.replicate 10 0, List.replicate 10 0,
        2, 1, 2, 3, 9, false, false, 2⟩ := by rfl
  have h := TSG_get_config_start_index_shifted (List.replicate 10 0)
    (List.replicate 10 0) 2 1 2 1 none false false 2 _ hmake
  refine ⟨h.1, h.2 _ ?_⟩
  rfl

/-- C8 witness: the theorem applied to a concrete generator with
`length=2`, `stride=2`, `batch_size=2`, `start_index=1`, `end_index=9`. -/
theorem TSG_len_and_batches_witness :
    (⟨List.replicate 10 0, List.replicate 10 0, 2, 1, 2, 3, 9,
        false, false, 2⟩ : TSG).len = (9 - 1 - 2 + 2 * 2) / (2 * 2) ∧
    (List.range (⟨List.replicate 10 0, List.replicate 10 0, 2, 1, 2, 3, 9,
        false, false, 2⟩ : TSG).len).flatMap
      (⟨List.replicate 10 0, List.replicate 10 0, 2, 1, 2, 3, 9,
        false, false, 2⟩ : TSG).rows = arange 3 10 2 := by
  have hmake : TSG.make (List.replicate 10 0) (List.replicate 10 0) 2 1 2 1
      (some 9) false false 2 = some ⟨List.replicate 10 0, List.replicate 10 0,
        2, 1, 2, 3, 9, false, false, 2⟩ := by rfl
  have h := TSG_len_and_batches (List.replicate 10 0) (List.replicate 10 0)
    2 1 2 1 9 false false 2 _ hmake (by omega) (by omega)
  exact ⟨h.1, h.2.2.2.2⟩

end KerasSpec

namespace KerasSpec

/-! ## make_sampling_table (keras/preprocessing/sequence.py lines 345-382),
with the float arithmetic modelled over `ℝ`. -/

/-- The rank array of `make_sampling_table`: `rank = np.arange(size)` with
`rank[0] = 1` ("rank 0 treated as rank 1"). -/
noncomputable def sampling_rank (r : ℕ) : ℝ := if r = 0 then 1 else r

/-- `inv_fq = rank * (np.log(rank) + gamma) + 0.5 - 1. / (12. * rank)` with
`gamma = 0.577` (sequence.py lines 376-379). -/
noncomputable def inv_fq (r : ℕ) : ℝ :=
  sampling_rank r * (Real.log (sampling_rank r) + 0.577) + 0.5 -
    1 / (12 * sampling_rank r)

/-- Entry `r` of the table: `min(1., f / np.sqrt(f))` with
`f = sampling_factor * inv_fq` (sequence.py lines 380-382). -/
noncomputable def sampling_table_entry (sampling_factor : ℝ) (r : ℕ) : ℝ :=
  min 1 ((sampling_factor * inv_fq r) / Real.sqrt (sampling_factor * inv_fq r))

/-- `make_sampling_table(size, sampling_factor)`. -/
noncomputable def make_sampling_table (size : ℕ) (sampling_factor : ℝ) : List ℝ :=
  (List.range size).map (sampling_table_entry sampling_factor)

theorem one_le_sampling_rank (r : ℕ) : 1 ≤ sampling_rank r := by
  unfold sampling_rank
  split_ifs with h
  · exact le_refl 1
  · exact_mod_cast Nat.one_le_iff_ne_zero.mpr h

theorem sampling_rank_mono (r r' : ℕ) (h : r ≤ r') :
    sampling_rank r ≤ sampling_rank r' := by
  unfold sampling_rank
  split_ifs with h1 h2
  · exact le_refl 1
  · exact_mod_cast Nat.one_le_iff_ne_zero.mpr h2
  · omega
  · exact_mod_cast h

theorem inv_fq_mono (r r' : ℕ) (h : r ≤ r') : inv_fq r ≤ inv_fq r' := by
  unfold inv_fq
  have hx1 : 1 ≤ sampling_rank r := one_le_sampling_rank r
  have hy1 : 1 ≤ sampling_rank r' := one_le_sampling_rank r'
  have hxy : sampling_rank r ≤ sampling_rank r' := sampling_rank_mono r r' h
  have hlogx : 0 ≤ Real.log (sampling_rank r) := Real.log_nonneg hx1
  have hlog : Real.log (sampling_rank r) ≤ Real.log (sampling_rank r') :=
    Real.log_le_log (by linarith) hxy
  have h1 : sampling_rank r * Real.log (sampling_rank r) ≤
      sampling_rank r' * Real.log (sampling_rank r') := by
    calc sampling_rank r * Real.log (sampling_rank r) ≤
        sampling_rank r' * Real.log (sampling_rank r) :=
          mul_le_mul_of_nonneg_right hxy hlogx
      _ ≤ sampling_rank r' * Real.log (sampling_rank r') :=
          mul_le_mul_of_nonneg_left hlog (by linarith)
  have h2 : 1 / (12 * sampling_rank r') ≤ 1 / (12 * sampling_rank r) :=
    one_div_le_one_div_of_le (by linarith) (by linarith)
  nlinarith

theorem make_sampling_table_getD (size : ℕ) (c : ℝ) (r : ℕ) (hr : r < size) :
    (make_sampling_table size c).getD r 0 = sampling_table_entry c r := by
  unfold make_sampling_table
  have hlen : r < ((List.range size).map (sampling_table_entry c)).length := by
    simp [hr]
  rw [List.getD_eq_getElem _ _ hlen]
  simp

/-- C9: for every `size ≥ 2` and sampling factor > 0, entry `r` of the table
equals `min(1, (factor * f(r)) / sqrt(factor * f(r)))` where
`f(r) = r*(ln r + γ) + 0.5 - 1/(12r)`, `γ = 0.577`, with rank 0 treated as
rank 1; and the table is monotonic non-increasing in frequency rank (more
frequent, i.e. lower-rank, entries are no larger than rarer ones). -/
theorem make_sampling_table_formula_and_monotone (size : ℕ) (c : ℝ)
    (_hsize : 2 ≤ size) (hc : 0 < c) :
    (∀ r, r < size → (make_sampling_table size c).getD r 0 =
      min 1 ((c * inv_fq r) / Real.sqrt (c * inv_fq r))) ∧
    (∀ r r', r ≤ r' → r' < size →
      (make_sampling_table size c).getD r 0 ≤
        (make_sampling_table size c).getD r' 0) := by
  constructor
  · intro r hr
    rw [make_sampling_table_getD size c r hr]
    rfl
  · intro r r' hrr hr'
    rw [make_sampling_table_getD size c r (by omega),
      make_sampling_table_getD size c r' hr']
    unfold sampling_table_entry
    rw [Real.div_sqrt, Real.div_sqrt]
    have hff : c * inv_fq r ≤ c * inv_fq r' :=
      mul_le_mul_of_nonneg_left (inv_fq_mono r r' hrr) (le_of_lt hc)
    exact min_le_min (le_refl 1) (Real.sqrt_le_sqrt hff)

/-- C9 witness: the theorem applied at `size = 3`, `factor = 1`. -/
theorem make_sampling_table_formula_and_monotone_witness :
    (make_sampling_table 3 1).getD 1 0 =
      min 1 ((1 * inv_fq 1) / Real.sqrt (1 * inv_fq 1)) ∧
    (make_sampling_table 3 1).getD 0 0 ≤ (make_sampling_table 3 1).getD 2 0 :=
  ⟨(make_sampling_table_formula_and_monotone 3 1 (by norm_num) (by norm_num)).1
      1 (by norm_num),
   (make_sampling_table_formula_and_monotone 3 1 (by norm_num) (by norm_num)).2
      0 2 (by norm_num) (by norm_num)⟩

end KerasSpec

namespace KerasSpec

/-- C6 witness: the common-permutation theorem applied at a concrete
generator, sequence and seed. -/
theorem skipgrams_shuffle_common_permutation_witness :
    ((skipgrams idRandom 0 7 (fun _ => 0) [0, 1, 2, 1] 5 1 1 true).1.zip
      (skipgrams idRandom 0 7 (fun _ => 0) [0, 1, 2, 1] 5 1 1 true).2).Perm
      ((skipgrams_raw idRandom 0 (fun _ => 0) [0, 1, 2, 1] 5 1 1).1.zip
       (skipgrams_raw idRandom 0 (fun _ => 0) [0, 1, 2, 1] 5 1 1).2) :=
  (skipgrams_shuffle_common_permutation idRandom 0 7 (fun _ => 0)
    [0, 1, 2, 1] 5 1 1).2.2.2.2

end KerasSpec
